import Mathlib

set_option maxHeartbeats 4000000
set_option maxRecDepth 8000

/-!
Shallow embedding of `src/Assets/Database/convert.py`
(DailyMealPlannerExtended data-preparation script).

The script is a linear pipeline:
  1. if `opennutrition_foods.tsv` is absent next to the script, download a
     zip archive, extract it into the script directory, move the first/each
     found `opennutrition_foods.tsv` to the top level, delete the zip and
     every top-level entry whose name begins with LICENSE or README;
  2. parse the tsv file with `pd.read_csv(tsv_file, sep='\t')`;
  3. create the per-platform app-data directory (`mkdir(parents=True,
     exist_ok=True)`) and write the table with
     `df.to_sql('opennutrition_foods', con, if_exists='replace', index=False)`.

The filesystem is modelled as a list of entries (path, file/dir); paths are
lists of name components relative to the script directory.  Fallible
operations return `Except`.
-/

namespace Convert

/-! ### Character-level string helpers.
`String.startsWith`, `String.splitOn` and `String.all` are opaque to
kernel reduction, so the Python string operations are modelled on the
character list of the string instead. -/

/-- Python's `str.startswith`. -/
def strStartsWith (s pre : String) : Bool := pre.data.isPrefixOf s.data

def splitCharsOn (c : Char) : List Char → List (List Char)
  | [] => [[]]
  | a :: rest =>
    match splitCharsOn c rest with
    | [] => if a = c then [[], []] else [[a]]
    | g :: gs => if a = c then [] :: g :: gs else (a :: g) :: gs

/-- Split a string at every occurrence of the single character `c`
(the script only ever splits on a one-character separator). -/
def strSplitOn (c : Char) (s : String) : List String :=
  (splitCharsOn c s.data).map List.asString

def strAll (p : Char → Bool) (s : String) : Bool := s.data.all p

def strIsEmpty (s : String) : Bool := s.data.isEmpty

def strDropOne (s : String) : String := (s.data.drop 1).asString

abbrev Path := List String

/-- A filesystem entry is a regular file with contents, or a directory. -/
inductive EKind where
  | file (content : String)
  | dir
deriving DecidableEq

structure Entry where
  path : Path
  kind : EKind
deriving DecidableEq

/-- The last path component. -/
def Entry.name (e : Entry) : String := e.path.getLastD ""

def Entry.isFile (e : Entry) : Bool :=
  match e.kind with
  | .file _ => true
  | .dir => false

def Entry.isDir (e : Entry) : Bool :=
  match e.kind with
  | .file _ => false
  | .dir => true

/-- A directory tree, as the list of its entries. -/
structure FS where
  entries : List Entry
deriving DecidableEq

/-- Contents of the regular file at `p`, if one exists. -/
def FS.fileAt (fs : FS) (p : Path) : Option String :=
  fs.entries.findSome? fun e =>
    match e.kind with
    | .file c => if e.path = p then some c else none
    | .dir => none

/-- `Path.exists()` restricted to regular files (the script only ever
tests the tsv path, which is a regular file when present). -/
def FS.fileExists (fs : FS) (p : Path) : Bool := (fs.fileAt p).isSome

def FS.dirExists (fs : FS) (p : Path) : Bool :=
  fs.entries.any fun e => e.isDir && decide (e.path = p)

/-- `Path.unlink()`: removes a regular file; raises `FileNotFoundError` if
nothing is at the path and `IsADirectoryError` if a directory is. -/
def FS.unlink (fs : FS) (p : Path) : Except String FS :=
  match fs.fileAt p with
  | some _ => .ok ⟨fs.entries.filter fun e => !decide (e.path = p)⟩
  | none =>
    if fs.dirExists p then .error "IsADirectoryError"
    else .error "FileNotFoundError"

/-- `Path.rename(dst)` for a regular file: POSIX semantics, silently
replacing any existing file at `dst`; raises if the source is missing.
(In the script the source always comes from `os.walk`'s file list, so it
is a regular file.) -/
def FS.rename (fs : FS) (src dst : Path) : Except String FS :=
  match fs.fileAt src with
  | some c =>
    .ok ⟨⟨dst, .file c⟩ ::
      (fs.entries.filter fun e => !decide (e.path = src) && !decide (e.path = dst))⟩
  | none => .error "FileNotFoundError"

/-- Write (or overwrite) a regular file, as `urllib.request.urlretrieve`
and `zipfile` extraction do. -/
def FS.writeFile (fs : FS) (p : Path) (c : String) : FS :=
  ⟨(fs.entries.filter fun e => !decide (e.path = p)) ++ [⟨p, .file c⟩]⟩

/-- `Path.iterdir()`: the top-level entries, in listing order. -/
def FS.topLevel (fs : FS) : List Entry :=
  fs.entries.filter fun e => decide (e.path.length = 1)

/-- Names of the regular files directly inside `dir` (the `files`
component of an `os.walk` tuple). -/
def FS.filesIn (fs : FS) (dir : Path) : List String :=
  fs.entries.filterMap fun e =>
    match e.kind with
    | .file _ => if e.path.dropLast = dir then e.path.getLast? else none
    | .dir => none

/-- The subdirectories directly inside `dir`, in listing order. -/
def FS.subdirsIn (fs : FS) (dir : Path) : List Path :=
  fs.entries.filterMap fun e =>
    if e.isDir && decide (e.path.dropLast = dir) then some e.path else none

/-- Top-down `os.walk` from `dir`, fuelled by the maximal nesting depth.
Every rename performed during the script's walk loop targets the top
level, which is listed before any rename happens, so the eager walk
coincides with Python's lazy one on the script's executions. -/
def FS.walkFrom (fs : FS) : Nat → Path → List (Path × List String)
  | 0, _ => []
  | fuel + 1, dir =>
    (dir, fs.filesIn dir) :: (fs.subdirsIn dir).flatMap (fs.walkFrom fuel)

def FS.walk (fs : FS) : List (Path × List String) :=
  fs.walkFrom (fs.entries.length + 1) []

/-! ### Fixed names from the script -/

def tsvName : String := "opennutrition_foods.tsv"

def tsvPath : Path := [tsvName]

def zipName : String := "opennutrition-dataset-2025.1.zip"

def zipPath : Path := [zipName]

def tableName : String := "opennutrition_foods"

/-- `user_data_dir('DailyMealPlannerExtended', 'DailyMealPlanner')`,
modelled as an abstract fixed per-platform path. -/
def appDataPath : Path := ["UserDataDir", "DailyMealPlanner", "DailyMealPlannerExtended"]

/-! ### Archive download and extraction -/

/-- One member of the zip archive (directories are implied by paths). -/
structure ArchEntry where
  path : Path
  content : String
deriving DecidableEq

abbrev Archive := List ArchEntry

/-- The remote end of the fixed download URL. -/
structure Config where
  remoteArchive : Archive

/-- The proper nonempty prefixes of a path: the directories that
extraction must create for this member. -/
def properPrefixes (p : Path) : List Path :=
  (List.range (p.length - 1)).map fun i => p.take (i + 1)

/-- Extract one archive member: create its parent directories, then write
the file (overwriting), as `ZipFile.extractall` does. -/
def extractOne (fs : FS) (a : ArchEntry) : FS :=
  let withDirs := (properPrefixes a.path).foldl
    (fun acc d => if acc.dirExists d then acc else ⟨acc.entries ++ [⟨d, .dir⟩]⟩) fs
  withDirs.writeFile a.path a.content

def extractAll (fs : FS) (ar : Archive) : FS := ar.foldl extractOne fs

/-! ### The search-and-move loop (convert.py lines 32-39) -/

/-- Body of the walk loop for one `(root, dirs, files)` tuple: the inner
loop breaks at the first file equal to `opennutrition_foods.tsv`; if that
match is not already the target path it is renamed onto it. -/
def processDir (fs : FS) (root : Path) (files : List String) : Except String FS :=
  match files.find? (fun f => decide (f = tsvName)) with
  | none => .ok fs
  | some f =>
    if root ++ [f] = tsvPath then .ok fs
    else fs.rename (root ++ [f]) tsvPath

def searchFold : List (Path × List String) → FS → Except String FS
  | [], fs => .ok fs
  | rf :: rest, fs =>
    match processDir fs rf.1 rf.2 with
    | .error m => .error m
    | .ok fs1 => searchFold rest fs1

/-- The whole `for root, dirs, files in os.walk(script_dir): ...` loop. -/
def searchLoop (fs : FS) : Except String FS := searchFold fs.walk fs

/-! ### Cleanup (convert.py lines 42-48) -/

/-- `item.name.startswith("LICENSE") or item.name.startswith("README")`. -/
def Entry.isCleanupTarget (e : Entry) : Bool :=
  strStartsWith e.name "LICENSE" || strStartsWith e.name "README"

def cleanupFold : List Entry → FS → Except (String × FS) FS
  | [], fs => .ok fs
  | item :: rest, fs =>
    if item.isCleanupTarget then
      match fs.unlink item.path with
      | .error m => .error (m, fs)
      | .ok fs1 => cleanupFold rest fs1
    else cleanupFold rest fs

/-- `zip_path.unlink()` followed by the `for item in script_dir.iterdir()`
loop; an error carries the filesystem state at the failure point. -/
def cleanup (fs : FS) : Except (String × FS) FS :=
  match fs.unlink zipPath with
  | .error m => .error (m, fs)
  | .ok fs1 => cleanupFold fs1.topLevel fs1

/-! ### Parsing (`pd.read_csv(tsv_file, sep='\t')`) -/

/-- `read_csv` skips blank lines (`skip_blank_lines=True` default). -/
def splitLines (s : String) : List String :=
  (strSplitOn '\n' s).filter fun l => !decide (l = "")

def splitTabs (l : String) : List String := strSplitOn '\t' l

inductive ColType where
  | int
  | float
  | text
deriving DecidableEq

def ColType.isNumeric : ColType → Bool
  | .text => false
  | _ => true

def isDigits (s : String) : Bool := !strIsEmpty s && strAll Char.isDigit s

def isIntLit (s : String) : Bool :=
  if strStartsWith s "-" then isDigits (strDropOne s) else isDigits s

def isFloatLit (s : String) : Bool :=
  let t := if strStartsWith s "-" then strDropOne s else s
  match strSplitOn '.' t with
  | [a, b] => (isDigits a && (strIsEmpty b || isDigits b)) || (strIsEmpty a && isDigits b)
  | [a] => isDigits a
  | _ => false

/-- pandas' best-effort dtype inference: an all-integer column becomes
integer, an all-numeric column becomes float, anything else stays text. -/
def inferColType (vals : List String) : ColType :=
  if vals.all isIntLit then .int
  else if vals.all isFloatLit then .float
  else .text

/-- The in-memory DataFrame: header row and data rows (cell values kept
verbatim; dtypes are recovered by `inferColType`). -/
structure Table where
  headers : List String
  rows : List (List String)
deriving DecidableEq

def Table.colTypeOf (t : Table) (name : String) : Option ColType :=
  (t.headers.findIdx? (fun h => decide (h = name))).map fun i =>
    inferColType (t.rows.map fun r => r.getD i "")

def Table.cell (t : Table) (i : Nat) (name : String) : Option String :=
  (t.headers.findIdx? (fun h => decide (h = name))).bind fun j =>
    (t.rows[i]?).bind fun r => r[j]?

/-- `pd.read_csv(path, sep='\t')` on a file's text: first row is the
header, the following rows are data; an empty input raises
`EmptyDataError`. -/
def parseTSV (content : String) : Except String Table :=
  match splitLines content with
  | [] => .error "EmptyDataError"
  | hd :: rest => .ok ⟨splitTabs hd, rest.map splitTabs⟩

/-! ### Database write (`df.to_sql(..., if_exists='replace', index=False)`) -/

structure DBTable where
  cols : List String
  rows : List (List String)
deriving DecidableEq

abbrev Database := List (String × DBTable)

inductive IfExists where
  | fail
  | replace
  | append
deriving DecidableEq

/-- The stored shape of a DataFrame: with `index=True` pandas prepends the
row-index column, with `index=False` it stores the columns verbatim. -/
def Table.toDBTable (t : Table) (index : Bool) : DBTable :=
  if index then
    ⟨"index" :: t.headers, t.rows.enum.map fun ir => toString ir.1 :: ir.2⟩
  else ⟨t.headers, t.rows⟩

def hasTable (db : Database) (name : String) : Bool :=
  db.any fun nt => decide (nt.1 = name)

def dropTable (db : Database) (name : String) : Database :=
  db.filter fun nt => !decide (nt.1 = name)

/-- `DataFrame.to_sql`: `fail` raises if the table exists, `replace`
drops and recreates it, `append` adds the rows to an existing table. -/
def to_sql (t : Table) (db : Database) (name : String) (ife : IfExists)
    (index : Bool) : Except String Database :=
  match ife with
  | .fail =>
    if hasTable db name then .error "ValueError"
    else .ok (db ++ [(name, t.toDBTable index)])
  | .replace => .ok (dropTable db name ++ [(name, t.toDBTable index)])
  | .append =>
    match db.find? (fun nt => decide (nt.1 = name)) with
    | some nt =>
      .ok (db.map fun p =>
        if p.1 = name then (p.1, ⟨nt.2.cols, nt.2.rows ++ (t.toDBTable index).rows⟩) else p)
    | none => .ok (db ++ [(name, t.toDBTable index)])

/-! ### `mkdir(parents=True, exist_ok=True)` -/

/-- The nonempty prefixes of a path, shortest first. -/
def allPrefixes (p : Path) : List Path :=
  (List.range p.length).map fun i => p.take (i + 1)

def mkdirFold : List Path → FS → Except String FS
  | [], fs => .ok fs
  | d :: rest, fs =>
    if fs.dirExists d then mkdirFold rest fs
    else if fs.fileExists d then .error "FileExistsError"
    else mkdirFold rest ⟨fs.entries ++ [⟨d, .dir⟩]⟩

/-- `Path.mkdir(parents=True, exist_ok=True)`: create every missing
prefix directory; existing directories are silently kept; a prefix that
exists as a regular file raises `FileExistsError`. -/
def FS.mkdirP (fs : FS) (p : Path) : Except String FS :=
  mkdirFold (allPrefixes p) fs

/-! ### The pipeline -/

/-- Process state: the script directory tree, the app-data tree, the
database file's tables, and a count of network downloads performed. -/
structure PState where
  fs : FS
  appFS : FS
  db : Database
  downloads : Nat
deriving DecidableEq

/-- An unhandled Python exception: its message and the state at abort. -/
structure RunErr where
  msg : String
  st : PState
deriving DecidableEq

/-- The cleanup tail of the download branch (convert.py lines 42-48). -/
def acqCleanupStep (st : PState) (fs3 : FS) : Except RunErr PState :=
  match cleanup fs3 with
  | .error me => .error ⟨me.1, { st with fs := me.2, downloads := st.downloads + 1 }⟩
  | .ok fs4 => .ok { st with fs := fs4, downloads := st.downloads + 1 }

/-- The download branch (convert.py lines 14-48): fetch the zip, extract
everything, walk-and-move, then clean up. -/
def acqDownload (cfg : Config) (st : PState) : Except RunErr PState :=
  match searchLoop (extractAll (st.fs.writeFile zipPath "zip-archive-bytes")
      cfg.remoteArchive) with
  | .error m =>
    .error ⟨m, { st with
      fs := extractAll (st.fs.writeFile zipPath "zip-archive-bytes") cfg.remoteArchive,
      downloads := st.downloads + 1 }⟩
  | .ok fs3 => acqCleanupStep st fs3

/-- Lines 13-50 of convert.py: if the tsv file exists the whole block is
skipped; otherwise the download branch runs. -/
def acquisition (cfg : Config) (st : PState) : Except RunErr PState :=
  if st.fs.fileExists tsvPath then .ok st else acqDownload cfg st

/-- Lines 56-62 of convert.py: platform path resolution, `mkdir`, and
the `to_sql` write. -/
def materialize (s1 : PState) (df : Table) : Except RunErr PState :=
  match s1.appFS.mkdirP appDataPath with
  | .error m => .error ⟨m, s1⟩
  | .ok app1 =>
    match to_sql df s1.db tableName .replace false with
    | .error m => .error ⟨m, { s1 with appFS := app1 }⟩
    | .ok db1 => .ok { s1 with appFS := app1, db := db1 }

/-- Line 52 of convert.py: `pd.read_csv(tsv_file, sep='\t')` — reading a
missing file raises `FileNotFoundError` — followed by materialization. -/
def parseStage (s1 : PState) : Except RunErr PState :=
  match s1.fs.fileAt tsvPath with
  | none => .error ⟨"FileNotFoundError", s1⟩
  | some content =>
    match parseTSV content with
    | .error m => .error ⟨m, s1⟩
    | .ok df => materialize s1 df

/-- The whole script: acquisition, `pd.read_csv`, `mkdir`, `to_sql`. -/
def runScript (cfg : Config) (st : PState) : Except RunErr PState :=
  match acquisition cfg st with
  | .error e => .error e
  | .ok s1 => parseStage s1

/-! ### Concrete scenarios used by the theorems -/

/-- A fresh working directory, empty app-data area, empty database. -/
def stEmpty : PState := ⟨⟨[]⟩, ⟨[]⟩, [], 0⟩

/-- An archive holding the dataset file twice, in two sibling
directories that the walk visits in order `d1`, `d2`. -/
def cfgTwoMatches (cA cB : String) : Config :=
  ⟨[⟨["d1", tsvName], cA⟩, ⟨["d2", tsvName], cB⟩]⟩

/-- The documented shape of the real archive: the dataset file inside a
directory, plus top-level README and LICENSE files. -/
def cfgStandard (c r l : String) : Config :=
  ⟨[⟨["data", tsvName], c⟩, ⟨["README.txt"], r⟩, ⟨["LICENSE"], l⟩]⟩

/-- An archive whose LICENSE entry is a directory (it contains a file),
so extraction leaves a top-level directory named LICENSE. -/
def cfgLicenseDir (c l : String) : Config :=
  ⟨[⟨["data", tsvName], c⟩, ⟨["LICENSE", "notice.txt"], l⟩]⟩

/-- The 3-row fixture from the spec's parse-fidelity property. -/
def fixture : String :=
  "name\tcalories\tprotein\nApple\t52\t0.3\nBanana\t89\t1.1\nCarrot\t41\t0.9"

/-! ### Helper lemmas -/

theorem fileAt_eq_none (fs : FS) (p : Path)
    (h : ∀ e ∈ fs.entries, e.path = p → e.isFile = false) : fs.fileAt p = none := by
  rw [FS.fileAt, List.findSome?_eq_none_iff]
  intro e he
  cases hek : e.kind with
  | dir => simp [hek]
  | file c =>
    have hf : e.isFile = true := by simp [Entry.isFile, hek]
    by_cases hp : e.path = p
    · have := h e he hp
      rw [hf] at this
      exact absurd this (by simp)
    · simp [hek, hp]

theorem dirExists_mono {fs fs' : FS} {q : Path}
    (h : ∀ e ∈ fs.entries, e ∈ fs'.entries) (hd : fs.dirExists q = true) :
    fs'.dirExists q = true := by
  rw [FS.dirExists, List.any_eq_true] at hd ⊢
  obtain ⟨e, he, hp⟩ := hd
  exact ⟨e, h e he, hp⟩

/-- The entry list after a successful cleanup loop: exactly the entries
whose path is not unlinked by one of the loop's matching items. -/
theorem cleanupFold_ok_entries (items : List Entry) :
    ∀ (fs out : FS), cleanupFold items fs = .ok out →
      out.entries = fs.entries.filter
        (fun e => !(items.any fun it => it.isCleanupTarget && decide (e.path = it.path))) := by
  induction items with
  | nil =>
    intro fs out h
    cases h
    simp
  | cons it rest ih =>
    intro fs out h
    rw [cleanupFold] at h
    by_cases hct : it.isCleanupTarget = true
    · rw [if_pos hct] at h
      cases hu : fs.unlink it.path with
      | error m => rw [hu] at h; cases h
      | ok fs1 =>
        rw [hu] at h
        have h1 := ih fs1 out h
        have hfs1 : fs1.entries = fs.entries.filter fun e => !decide (e.path = it.path) := by
          rw [FS.unlink] at hu
          cases hf : fs.fileAt it.path with
          | some c => rw [hf] at hu; cases hu; rfl
          | none =>
            rw [hf] at hu
            by_cases hd : fs.dirExists it.path = true
            · rw [if_pos hd] at hu; cases hu
            · rw [if_neg hd] at hu; cases hu
        rw [h1, hfs1, List.filter_filter]
        apply List.filter_congr
        intro e _
        by_cases hp : e.path = it.path <;>
          simp [hp, hct, Bool.and_comm]
    · rw [if_neg hct] at h
      have h1 := ih fs out h
      rw [h1]
      apply List.filter_congr
      intro e _
      simp at hct
      simp [hct]

/-- After a successful cleanup: the zip file and every top-level
LICENSE*/README* entry are gone, everything else is untouched. -/
theorem cleanup_ok_entries (fs out : FS) (h : cleanup fs = .ok out) :
    out.entries = fs.entries.filter
      (fun e => !decide (e.path = zipPath) &&
        !(decide (e.path.length = 1) && e.isCleanupTarget)) := by
  rw [cleanup] at h
  cases hu : fs.unlink zipPath with
  | error m => rw [hu] at h; cases h
  | ok fs1 =>
    rw [hu] at h
    have hfs1 : fs1.entries = fs.entries.filter fun e => !decide (e.path = zipPath) := by
      rw [FS.unlink] at hu
      cases hf : fs.fileAt zipPath with
      | some c => rw [hf] at hu; cases hu; rfl
      | none =>
        rw [hf] at hu
        by_cases hd : fs.dirExists zipPath = true
        · rw [if_pos hd] at hu; cases hu
        · rw [if_neg hd] at hu; cases hu
    have h1 := cleanupFold_ok_entries fs1.topLevel fs1 out h
    rw [h1, hfs1, List.filter_filter]
    apply List.filter_congr
    intro e he
    by_cases hz : e.path = zipPath
    · simp [hz]
    · rw [decide_eq_false hz]
      simp only [Bool.not_false, Bool.and_true]
      have hany : (fs1.topLevel.any fun it => it.isCleanupTarget && decide (e.path = it.path)) =
          (decide (e.path.length = 1) && e.isCleanupTarget) := by
        rw [Bool.eq_iff_iff, List.any_eq_true, Bool.and_eq_true, decide_eq_true_eq]
        constructor
        · rintro ⟨it, hit, hp⟩
          rw [FS.topLevel, List.mem_filter] at hit
          obtain ⟨hmem, hlen⟩ := hit
          obtain ⟨hct, hpe⟩ := (Bool.and_eq_true _ _).mp hp
          rw [decide_eq_true_eq] at hpe hlen
          have hname : e.isCleanupTarget = it.isCleanupTarget := by
            rw [Entry.isCleanupTarget, Entry.isCleanupTarget, Entry.name, Entry.name, hpe]
          rw [hpe, hname]
          exact ⟨hlen, hct⟩
        · rintro ⟨hlen, hct⟩
          refine ⟨e, ?_, ?_⟩
          · rw [FS.topLevel, List.mem_filter]
            refine ⟨?_, by simp [hlen]⟩
            rw [hfs1, List.mem_filter]
            exact ⟨he, by simp [hz]⟩
          · simp [hct]
      rw [hany, Bool.true_and]

/-- `filter (name = n)` of a replace-written database is the one new
table. -/
theorem filter_dropTable_append (db : Database) (n : String) (tbl : DBTable) :
    (dropTable db n ++ [(n, tbl)]).filter (fun nt => decide (nt.1 = n)) = [(n, tbl)] := by
  rw [List.filter_append, dropTable, List.filter_filter]
  have hnil : (db.filter fun a => decide (a.1 = n) && !decide (a.1 = n)) = [] := by
    rw [List.filter_eq_nil_iff]
    intro a _
    cases hd : decide (a.1 = n) <;> simp [hd]
  rw [hnil]
  simp

/-- No regular file anywhere in the tree is named
`opennutrition_foods.tsv`. -/
def NoTsv (fs : FS) : Prop :=
  ∀ e ∈ fs.entries, e.isFile = true → e.path.getLast? ≠ some tsvName

theorem noTsv_fileAt (fs : FS) (h : NoTsv fs) (p : Path)
    (hp : p.getLast? = some tsvName) : fs.fileAt p = none := by
  apply fileAt_eq_none
  intro e he hpe
  cases hf : e.isFile with
  | false => rfl
  | true =>
    have := h e he hf
    rw [hpe, hp] at this
    exact absurd rfl this

theorem walkFrom_files (fs : FS) :
    ∀ (fuel : Nat) (d r : Path) (fl : List String),
      (r, fl) ∈ fs.walkFrom fuel d → fl = fs.filesIn r := by
  intro fuel
  induction fuel with
  | zero =>
    intro d r fl h
    simp [FS.walkFrom] at h
  | succ n ih =>
    intro d r fl h
    rw [FS.walkFrom, List.mem_cons] at h
    rcases h with h | h
    · rw [Prod.mk.injEq] at h
      rw [h.2, h.1]
    · rw [List.mem_flatMap] at h
      obtain ⟨x, _, hm⟩ := h
      exact ih x r fl hm

theorem noTsv_not_mem_filesIn (fs : FS) (h : NoTsv fs) (d : Path) :
    tsvName ∉ fs.filesIn d := by
  intro hm
  rw [FS.filesIn, List.mem_filterMap] at hm
  obtain ⟨e, he, hfe⟩ := hm
  cases hek : e.kind with
  | dir => rw [hek] at hfe; cases hfe
  | file c =>
    rw [hek] at hfe
    by_cases hd : e.path.dropLast = d
    · rw [if_pos hd] at hfe
      have hf : e.isFile = true := by simp [Entry.isFile, hek]
      exact h e he hf hfe
    · rw [if_neg hd] at hfe
      cases hfe

theorem searchFold_no_match (L : List (Path × List String)) (fs : FS)
    (h : ∀ rf ∈ L, tsvName ∉ rf.2) : searchFold L fs = .ok fs := by
  induction L with
  | nil => rfl
  | cons rf rest ih =>
    rw [searchFold]
    have hpd : processDir fs rf.1 rf.2 = .ok fs := by
      rw [processDir]
      have : rf.2.find? (fun f => decide (f = tsvName)) = none := by
        rw [List.find?_eq_none]
        intro x hx hdx
        rw [decide_eq_true_eq] at hdx
        exact h rf (List.mem_cons_self rf rest) (hdx ▸ hx)
      rw [this]
    rw [hpd]
    exact ih fun rf hm => h rf (List.mem_cons_of_mem _ hm)

theorem noTsv_searchLoop (fs : FS) (h : NoTsv fs) : searchLoop fs = .ok fs := by
  rw [searchLoop]
  apply searchFold_no_match
  intro rf hm
  rw [walkFrom_files fs _ _ rf.1 rf.2 (by rwa [Prod.mk.eta])]
  exact noTsv_not_mem_filesIn fs h rf.1

theorem noTsv_subset (fs : FS) (l : List Entry) (h : NoTsv fs)
    (hs : ∀ e ∈ l, e ∈ fs.entries) : NoTsv ⟨l⟩ :=
  fun e he => h e (hs e he)

theorem noTsv_writeFile (fs : FS) (p : Path) (c : String) (h : NoTsv fs)
    (hp : p.getLast? ≠ some tsvName) : NoTsv (fs.writeFile p c) := by
  intro e he hf
  rw [FS.writeFile] at he
  simp only [List.mem_append, List.mem_filter, List.mem_singleton] at he
  rcases he with ⟨hm, _⟩ | rfl
  · exact h e hm hf
  · exact hp

theorem noTsv_appendDirs (ds : List Path) :
    ∀ fs : FS, NoTsv fs →
      NoTsv (ds.foldl (fun acc d =>
        if acc.dirExists d then acc else ⟨acc.entries ++ [⟨d, .dir⟩]⟩) fs) := by
  induction ds with
  | nil => intro fs h; exact h
  | cons d rest ih =>
    intro fs h
    rw [List.foldl_cons]
    apply ih
    by_cases hd : fs.dirExists d = true
    · rw [if_pos hd]; exact h
    · rw [if_neg hd]
      intro e he hf
      simp only [List.mem_append, List.mem_singleton] at he
      rcases he with hm | rfl
      · exact h e hm hf
      · cases hf

theorem noTsv_extractAll (ar : Archive) :
    ∀ fs : FS, NoTsv fs → (∀ a ∈ ar, a.path.getLast? ≠ some tsvName) →
      NoTsv (extractAll fs ar) := by
  induction ar with
  | nil => intro fs h _; exact h
  | cons a rest ih =>
    intro fs h hn
    have hstep : extractAll fs (a :: rest) = extractAll (extractOne fs a) rest := rfl
    rw [hstep]
    apply ih
    · rw [extractOne]
      apply noTsv_writeFile
      · exact noTsv_appendDirs (properPrefixes a.path) fs h
      · exact hn a (List.mem_cons_self a rest)
    · exact fun b hb => hn b (List.mem_cons_of_mem _ hb)

/-- A successful `mkdirFold` keeps every old entry and makes every
requested directory exist. -/
theorem mkdirFold_ok (qs : List Path) :
    ∀ (fs out : FS), mkdirFold qs fs = .ok out →
      (∀ e ∈ fs.entries, e ∈ out.entries) ∧ (∀ q ∈ qs, out.dirExists q = true) := by
  induction qs with
  | nil =>
    intro fs out h
    cases h
    exact ⟨fun e he => he, fun q hq => absurd hq (List.not_mem_nil q)⟩
  | cons d rest ih =>
    intro fs out h
    rw [mkdirFold] at h
    by_cases hd : fs.dirExists d = true
    · rw [if_pos hd] at h
      obtain ⟨hmono, hdirs⟩ := ih fs out h
      refine ⟨hmono, fun q hq => ?_⟩
      rcases List.mem_cons.mp hq with rfl | hq
      · exact dirExists_mono hmono hd
      · exact hdirs q hq
    · rw [if_neg hd] at h
      by_cases hf : fs.fileExists d = true
      · rw [if_pos hf] at h; cases h
      · rw [if_neg hf] at h
        obtain ⟨hmono, hdirs⟩ := ih _ out h
        refine ⟨fun e he => hmono e (List.mem_append_left _ he), fun q hq => ?_⟩
        rcases List.mem_cons.mp hq with rfl | hq
        · apply dirExists_mono hmono
          rw [FS.dirExists, List.any_eq_true]
          exact ⟨⟨q, .dir⟩, List.mem_append_right _ (List.mem_singleton.mpr rfl),
            by simp [Entry.isDir]⟩
        · exact hdirs q hq

/-- Appending a directory entry changes no file lookup. -/
theorem fileAt_append_dir (l : List Entry) (d p : Path) :
    FS.fileAt ⟨l ++ [⟨d, .dir⟩]⟩ p = FS.fileAt ⟨l⟩ p := by
  rw [FS.fileAt, FS.fileAt, List.findSome?_append]
  have : List.findSome? (fun e =>
      match e.kind with
      | .file c => if e.path = p then some c else none
      | .dir => none) [(⟨d, .dir⟩ : Entry)] = none := rfl
  rw [this]
  cases List.findSome? _ l <;> rfl

/-- When no prefix of the requested path is a regular file, `mkdirFold`
succeeds. -/
theorem mkdirFold_no_file_ok (qs : List Path) :
    ∀ fs : FS, (∀ q ∈ qs, fs.fileExists q = false) →
      ∃ out, mkdirFold qs fs = .ok out := by
  induction qs with
  | nil => intro fs _; exact ⟨fs, rfl⟩
  | cons d rest ih =>
    intro fs h
    rw [mkdirFold]
    by_cases hd : fs.dirExists d = true
    · rw [if_pos hd]
      exact ih fs fun q hq => h q (List.mem_cons_of_mem _ hq)
    · rw [if_neg hd, h d (List.mem_cons_self d rest)]
      simp only [Bool.false_eq_true, if_false]
      apply ih
      intro q hq
      rw [FS.fileExists, fileAt_append_dir]
      exact h q (List.mem_cons_of_mem _ hq)

/-- When every prefix already exists as a directory, `mkdirFold` is an
error-free no-op. -/
theorem mkdirFold_all_dirs (qs : List Path) (fs : FS)
    (h : ∀ q ∈ qs, fs.dirExists q = true) : mkdirFold qs fs = .ok fs := by
  induction qs with
  | nil => rfl
  | cons d rest ih =>
    rw [mkdirFold, if_pos (h d (List.mem_cons_self d rest))]
    exact ih fun q hq => h q (List.mem_cons_of_mem _ hq)

/-- Inversion of a successful whole-script run into its four stages. -/
theorem runScript_ok_inv (cfg : Config) (st st' : PState)
    (h : runScript cfg st = .ok st') :
    ∃ s1 content df app1 db1,
      acquisition cfg st = .ok s1 ∧
      s1.fs.fileAt tsvPath = some content ∧
      parseTSV content = .ok df ∧
      s1.appFS.mkdirP appDataPath = .ok app1 ∧
      to_sql df s1.db tableName .replace false = .ok db1 ∧
      st' = { s1 with appFS := app1, db := db1 } := by
  rw [runScript] at h
  split at h
  · cases h
  · rename_i s1 hacq
    rw [parseStage] at h
    split at h
    · cases h
    · rename_i content hfa
      split at h
      · cases h
      · rename_i df hp
        rw [materialize] at h
        split at h
        · cases h
        · rename_i app1 hm
          split at h
          · cases h
          · rename_i db1 hq
            cases h
            exact ⟨s1, content, df, app1, db1, hacq, hfa, hp, hm, hq, rfl⟩

/-- Inversion of a successful acquisition: either the dataset file was
already present and nothing happened, or the download branch ran and
ended with a successful search walk and cleanup. -/
theorem acquisition_ok_inv (cfg : Config) (st s1 : PState)
    (h : acquisition cfg st = .ok s1) :
    (st.fs.fileExists tsvPath = true ∧ s1 = st) ∨
    (st.fs.fileExists tsvPath = false ∧
      ∃ fs3 fs4,
        searchLoop (extractAll (st.fs.writeFile zipPath "zip-archive-bytes")
          cfg.remoteArchive) = .ok fs3 ∧
        cleanup fs3 = .ok fs4 ∧
        s1 = { st with fs := fs4, downloads := st.downloads + 1 }) := by
  rw [acquisition] at h
  by_cases hex : st.fs.fileExists tsvPath = true
  · rw [if_pos hex] at h
    cases h
    exact .inl ⟨hex, rfl⟩
  · rw [if_neg hex] at h
    have hex0 : st.fs.fileExists tsvPath = false := by
      revert hex
      cases st.fs.fileExists tsvPath <;> simp
    refine .inr ⟨hex0, ?_⟩
    rw [acqDownload] at h
    split at h
    · cases h
    · rename_i fs3 hsl
      rw [acqCleanupStep] at h
      split at h
      · cases h
      · rename_i fs4 hcl
        cases h
        exact ⟨fs3, fs4, hsl, hcl, rfl⟩

/-! ### Claim theorems -/

/-- Claim C2: when the dataset file already exists at the fixed target
path, the acquisition step is skipped entirely — it returns the state
unchanged (so the file is byte-for-byte identical and the download
counter, i.e. network activity, is untouched); and after any successful
run of the script, running acquisition again is the same no-op. -/
theorem acquisition_skip_noop (cfg : Config) (st : PState) :
    (st.fs.fileExists tsvPath = true → acquisition cfg st = .ok st) ∧
    (∀ st', runScript cfg st = .ok st' → acquisition cfg st' = .ok st') := by
  constructor
  · intro h
    rw [acquisition, if_pos h]
  · intro st' h
    obtain ⟨s1, content, df, app1, db1, _, hfa, _, _, _, hst⟩ :=
      runScript_ok_inv cfg st st' h
    have hex : st'.fs.fileExists tsvPath = true := by
      rw [hst]
      show s1.fs.fileExists tsvPath = true
      rw [FS.fileExists, hfa]
      rfl
    rw [acquisition, if_pos hex]

/-- Witness for C2 at a concrete state whose working directory already
holds the dataset file. -/
def stHasTsv : PState := ⟨⟨[⟨tsvPath, .file "name\tkcal\nApple\t52"⟩]⟩, ⟨[]⟩, [], 0⟩

theorem acquisition_skip_noop_witness :
    acquisition ⟨[]⟩ stHasTsv = .ok stHasTsv :=
  (acquisition_skip_noop ⟨[]⟩ stHasTsv).1 (by decide)

/-- Claim C3: writing a table with `if_exists='replace', index=False`
twice in a row leaves, each time, exactly one table of that name, holding
exactly the table's rows under exactly the table's columns (no row-index
column, no appending or accumulation). -/
theorem to_sql_replace_semantics (t : Table) (db : Database) (nm : String) :
    ∃ db1 db2, to_sql t db nm .replace false = .ok db1 ∧
      to_sql t db1 nm .replace false = .ok db2 ∧
      db1.filter (fun nt => decide (nt.1 = nm)) = [(nm, ⟨t.headers, t.rows⟩)] ∧
      db2.filter (fun nt => decide (nt.1 = nm)) = [(nm, ⟨t.headers, t.rows⟩)] := by
  have htbl : t.toDBTable false = ⟨t.headers, t.rows⟩ := rfl
  refine ⟨_, _, rfl, rfl, ?_, ?_⟩ <;>
    rw [htbl] <;>
    exact filter_dropTable_append _ nm ⟨t.headers, t.rows⟩

/-- Claim C7: a successful cleanup removes exactly the downloaded zip
and the top-level entries whose names begin with LICENSE or README;
every other entry of the working tree — nested directories, unrelated
files — survives with its contents, as the filter equality states. -/
theorem cleanup_frame (fs out : FS) (h : cleanup fs = .ok out) :
    out.entries = fs.entries.filter
      (fun e => !decide (e.path = zipPath) &&
        !(decide (e.path.length = 1) && e.isCleanupTarget)) :=
  cleanup_ok_entries fs out h

/-- Witness scenario for C7: zip plus LICENSE and README files, a nested
directory with a file, and an unrelated top-level file. -/
def fsCleanupDemo : FS :=
  ⟨[⟨zipPath, .file "zipbytes"⟩, ⟨["LICENSE"], .file "lic"⟩,
    ⟨["README.txt"], .file "rdm"⟩, ⟨["data"], .dir⟩,
    ⟨["data", "keep.txt"], .file "keep"⟩, ⟨["notes.txt"], .file "notes"⟩]⟩

theorem cleanup_frame_witness :
    ∃ out, cleanup fsCleanupDemo = .ok out ∧
      out.entries = fsCleanupDemo.entries.filter
        (fun e => !decide (e.path = zipPath) &&
          !(decide (e.path.length = 1) && e.isCleanupTarget)) :=
  ⟨_, rfl, cleanup_frame fsCleanupDemo _ rfl⟩

/-- Claim C8: parsing the tab-separated fixture yields exactly 3 data
rows and 3 columns, the `calories` column is inferred numeric, and the
first data row's `name` is `Apple`. -/
theorem parse_fixture_fidelity :
    ∃ t, parseTSV fixture = .ok t ∧ t.rows.length = 3 ∧ t.headers.length = 3 ∧
      (∀ r ∈ t.rows, r.length = 3) ∧
      (t.colTypeOf "calories").map ColType.isNumeric = some true ∧
      t.cell 0 "name" = some "Apple" := by
  refine ⟨_, rfl, rfl, rfl, ?_, rfl, rfl⟩
  decide

/-- Claim C9: `mkdir(parents=True, exist_ok=True)` creates the target
directory together with all missing parents (when no prefix is occupied
by a regular file) while keeping every existing entry, and is an
error-free no-op when the directory chain already exists. -/
theorem mkdir_parents_exist_ok (fs : FS) (p : Path) :
    ((∀ q ∈ allPrefixes p, fs.fileExists q = false) →
      ∃ out, fs.mkdirP p = .ok out ∧
        (∀ q ∈ allPrefixes p, out.dirExists q = true) ∧
        ∀ e ∈ fs.entries, e ∈ out.entries) ∧
    ((∀ q ∈ allPrefixes p, fs.dirExists q = true) → fs.mkdirP p = .ok fs) := by
  constructor
  · intro h
    obtain ⟨out, hout⟩ := mkdirFold_no_file_ok (allPrefixes p) fs h
    obtain ⟨hmono, hdirs⟩ := mkdirFold_ok (allPrefixes p) fs out hout
    exact ⟨out, hout, hdirs, hmono⟩
  · exact mkdirFold_all_dirs (allPrefixes p) fs

/-- Witness scenario for C9: the directory chain already exists. -/
def fsDirsDemo : FS := ⟨[⟨["a"], .dir⟩, ⟨["a", "b"], .dir⟩]⟩

theorem mkdir_parents_exist_ok_witness :
    FS.mkdirP fsDirsDemo ["a", "b"] = .ok fsDirsDemo ∧
    ∃ out, FS.mkdirP fsDirsDemo ["a", "b"] = .ok out ∧
      (∀ q ∈ allPrefixes ["a", "b"], out.dirExists q = true) ∧
      ∀ e ∈ fsDirsDemo.entries, e ∈ out.entries :=
  ⟨(mkdir_parents_exist_ok fsDirsDemo ["a", "b"]).2 (by decide),
   (mkdir_parents_exist_ok fsDirsDemo ["a", "b"]).1 (by decide)⟩

/-- Counterexample to C4 as stated: the archive holds the dataset file
in two sibling directories, `d1` (content "A") listed before `d2`
(content "B").  If the first match determined the retained file, the
target would hold "A"; the run actually retains "B", because the `break`
leaves only the inner per-directory loop and the walk goes on. -/
theorem search_first_match_counterexample :
    ∃ s, acquisition (cfgTwoMatches "A" "B") stEmpty = .ok s ∧
      s.fs.fileAt tsvPath = some "B" ∧ some "B" ≠ some "A" :=
  ⟨_, rfl, rfl, by decide⟩

/-- Claim C4 (amended): the inner loop stops at the first matching file
within each walked directory, but the outer walk continues; every
directory's match is moved onto the target path in turn, so with matches
in several directories the match of the last directory in walk order is
the retained file (here: both source copies are gone and the target
holds the second directory's content). -/
theorem search_last_match_retained (cA cB : String) :
    ∃ s, acquisition (cfgTwoMatches cA cB) stEmpty = .ok s ∧
      s.fs.fileAt tsvPath = some cB ∧
      s.fs.fileAt ["d1", tsvName] = none ∧
      s.fs.fileAt ["d2", tsvName] = none :=
  ⟨_, rfl, rfl, rfl, rfl⟩

/-- Claim C6: acquiring from an archive holding the dataset file (in a
subdirectory) plus top-level README and LICENSE files succeeds; the
dataset ends at the target path with its archive content, the downloaded
zip is gone, and no top-level LICENSE*/README* entry survives. -/
theorem acquisition_extraction_correct (c r l : String) :
    ∃ s, acquisition (cfgStandard c r l) stEmpty = .ok s ∧
      s.fs.fileAt tsvPath = some c ∧
      s.fs.fileExists zipPath = false ∧
      s.fs.topLevel.all (fun e => !e.isCleanupTarget) = true :=
  ⟨_, rfl, rfl, rfl, rfl⟩

/-- Claim C10: when extraction leaves a top-level directory named
LICENSE, the cleanup loop's `unlink` raises `IsADirectoryError`, so the
whole run aborts before the parse and database-write steps — the
database is exactly as it started. -/
theorem license_dir_cleanup_aborts (c l : String) :
    ∃ e, runScript (cfgLicenseDir c l) stEmpty = .error e ∧
      e.st.db = stEmpty.db ∧ e.msg = "IsADirectoryError" :=
  ⟨_, rfl, rfl, rfl⟩

/-- Claim C5: if the archive contains no file named
`opennutrition_foods.tsv` (and the working directory holds none either),
the run terminates with an unhandled error — either the cleanup raises,
or `pd.read_csv` raises `FileNotFoundError` — and the database is never
written: it is exactly the initial one at the abort point. -/
theorem missing_dataset_aborts (cfg : Config) (st : PState)
    (hn : ∀ a ∈ cfg.remoteArchive, a.path.getLast? ≠ some tsvName)
    (hfs : ∀ e ∈ st.fs.entries, e.path.getLast? ≠ some tsvName) :
    ∃ e, runScript cfg st = .error e ∧ e.st.db = st.db := by
  have hNo : NoTsv st.fs := fun e he _ => hfs e he
  have hgl : (tsvPath : Path).getLast? = some tsvName := rfl
  have hex : st.fs.fileExists tsvPath = false := by
    rw [FS.fileExists, noTsv_fileAt st.fs hNo tsvPath hgl]
    rfl
  have hNo2 : NoTsv (extractAll (st.fs.writeFile zipPath "zip-archive-bytes")
      cfg.remoteArchive) :=
    noTsv_extractAll cfg.remoteArchive _
      (noTsv_writeFile st.fs zipPath _ hNo (by decide)) hn
  have hsl := noTsv_searchLoop _ hNo2
  have ea : acquisition cfg st = acqDownload cfg st := by
    rw [acquisition, if_neg (by simp [hex])]
  have eb : acqDownload cfg st =
      acqCleanupStep st (extractAll (st.fs.writeFile zipPath "zip-archive-bytes")
        cfg.remoteArchive) := by
    rw [acqDownload, hsl]
  cases hcl : cleanup (extractAll (st.fs.writeFile zipPath "zip-archive-bytes")
      cfg.remoteArchive) with
  | error me =>
    have ec : acqCleanupStep st (extractAll (st.fs.writeFile zipPath "zip-archive-bytes")
        cfg.remoteArchive) =
        .error ⟨me.1, { st with fs := me.2, downloads := st.downloads + 1 }⟩ := by
      rw [acqCleanupStep, hcl]
    refine ⟨⟨me.1, { st with fs := me.2, downloads := st.downloads + 1 }⟩, ?_, rfl⟩
    rw [runScript, (ea.trans eb).trans ec]
  | ok fs4 =>
    have ec : acqCleanupStep st (extractAll (st.fs.writeFile zipPath "zip-archive-bytes")
        cfg.remoteArchive) =
        .ok { st with fs := fs4, downloads := st.downloads + 1 } := by
      rw [acqCleanupStep, hcl]
    have hNo4 : NoTsv fs4 := by
      have hent := cleanup_ok_entries _ fs4 hcl
      intro e he hf
      rw [hent] at he
      exact hNo2 e (List.mem_filter.mp he).1 hf
    have hfa : fs4.fileAt tsvPath = none := noTsv_fileAt fs4 hNo4 tsvPath hgl
    refine ⟨⟨"FileNotFoundError", { st with fs := fs4, downloads := st.downloads + 1 }⟩,
      ?_, rfl⟩
    have e1 : runScript cfg st =
        parseStage { st with fs := fs4, downloads := st.downloads + 1 } := by
      rw [runScript, (ea.trans eb).trans ec]
    have e2 : parseStage { st with fs := fs4, downloads := st.downloads + 1 } =
        .error ⟨"FileNotFoundError", { st with fs := fs4, downloads := st.downloads + 1 }⟩ := by
      rw [parseStage]
      rw [show ({ st with fs := fs4, downloads := st.downloads + 1 } : PState).fs = fs4
        from rfl, hfa]
    exact e1.trans e2

/-- Witness for C5: an archive holding only a README, started from an
empty working directory. -/
theorem missing_dataset_aborts_witness :
    ∃ e, runScript ⟨[⟨["README.txt"], "readme-text"⟩]⟩ stEmpty = .error e ∧
      e.st.db = stEmpty.db :=
  missing_dataset_aborts ⟨[⟨["README.txt"], "readme-text"⟩]⟩ stEmpty
    (by decide) (by decide)

/-- Claim C1: after every successful run started without a stray archive
in the working directory, the database holds exactly one table named
`opennutrition_foods` whose rows are the parsed dataset rows — one per
data row of the retained dataset file (header excluded) — the zip
archive is absent from the working directory, and the application-data
directory exists. -/
theorem script_run_invariant (cfg : Config) (st st' : PState)
    (hzip : st.fs.fileExists zipPath = false)
    (h : runScript cfg st = .ok st') :
    (∃ content df, st'.fs.fileAt tsvPath = some content ∧ parseTSV content = .ok df ∧
      st'.db.filter (fun nt => decide (nt.1 = tableName)) =
        [(tableName, ⟨df.headers, df.rows⟩)] ∧
      df.rows.length = (splitLines content).length - 1) ∧
    st'.fs.fileExists zipPath = false ∧
    st'.appFS.dirExists appDataPath = true := by
  obtain ⟨s1, content, df, app1, db1, hacq, hfa, hp, hm, hq, hst⟩ :=
    runScript_ok_inv cfg st st' h
  subst hst
  have hdb : db1 = dropTable s1.db tableName ++ [(tableName, ⟨df.headers, df.rows⟩)] := by
    have hq2 : (Except.ok (dropTable s1.db tableName ++ [(tableName, ⟨df.headers, df.rows⟩)]) :
        Except String Database) = .ok db1 := hq
    injection hq2 with h2
    exact h2.symm
  refine ⟨⟨content, df, hfa, hp, ?_, ?_⟩, ?_, ?_⟩
  · rw [show ({ s1 with appFS := app1, db := db1 } : PState).db = db1 from rfl, hdb]
    exact filter_dropTable_append s1.db tableName ⟨df.headers, df.rows⟩
  · rw [parseTSV] at hp
    cases hsp : splitLines content with
    | nil => rw [hsp] at hp; cases hp
    | cons hd rest =>
      rw [hsp] at hp
      have hp2 : (Except.ok (⟨splitTabs hd, rest.map splitTabs⟩ : Table) :
          Except String Table) = .ok df := hp
      injection hp2 with h3
      rw [← h3]
      simp
  · rcases acquisition_ok_inv cfg st s1 hacq with ⟨hex, rfl⟩ | ⟨hex, fs3, fs4, hsl, hcl, hs1⟩
    · exact hzip
    · subst hs1
      have hent := cleanup_ok_entries fs3 fs4 hcl
      have hnone : fs4.fileAt zipPath = none := by
        apply fileAt_eq_none
        intro e he hpe
        exfalso
        rw [hent] at he
        have hm2 := (List.mem_filter.mp he).2
        rw [hpe] at hm2
        simp at hm2
      show fs4.fileExists zipPath = false
      rw [FS.fileExists, hnone]
      rfl
  · obtain ⟨hmono, hdirs⟩ := mkdirFold_ok (allPrefixes appDataPath) s1.appFS app1 hm
    exact hdirs appDataPath (by decide)

/-- Witness for C1: a full concrete run — download, extract, move,
cleanup, parse, mkdir, db write — from an empty initial state. -/
theorem script_run_invariant_witness :
    ∃ st', runScript (cfgStandard "name\tcalories\nApple\t52" "rr" "ll") stEmpty = .ok st' ∧
      ((∃ content df, st'.fs.fileAt tsvPath = some content ∧ parseTSV content = .ok df ∧
        st'.db.filter (fun nt => decide (nt.1 = tableName)) =
          [(tableName, ⟨df.headers, df.rows⟩)] ∧
        df.rows.length = (splitLines content).length - 1) ∧
      st'.fs.fileExists zipPath = false ∧
      st'.appFS.dirExists appDataPath = true) := by
  refine ⟨_, rfl, ?_⟩
  exact script_run_invariant (cfgStandard "name\tcalories\nApple\t52" "rr" "ll")
    stEmpty _ (by decide) rfl

end Convert
